import Mathlib

/-!
Verification of the card-input widget's core logic.

The development shallowly embeds the repository's TypeScript sources:
* `src/utils/cardFormatter.ts` — pure card-number utilities
  (`detectCardBrand`, `formatCardNumber`, `cleanCardNumber`,
  `validateCardNumber`, templates and ghost text);
* `src/components/CardInput.tsx` — the block state machine
  (`handleFrontChange`, `handleKeypadNumber`, the BIN-check effect, and
  the display helpers).

Strings are modelled through their character lists (`String.data`);
JavaScript regular-expression operations are translated into the
corresponding character-level scans.
-/

namespace CardInput

/-- Numeric code point of a character (JS `charCodeAt` for the BMP range
used here). -/
def digitCode (c : Char) : Nat := c.toNat

/-- Regex character-class range test `[lo-hi]`: the code point of `c` lies
between those of `lo` and `hi`. -/
def charBetween (lo hi c : Char) : Bool :=
  decide (lo.toNat ≤ c.toNat ∧ c.toNat ≤ hi.toNat)

/-- Regex `\d` / `[0-9]`. -/
def isDigitChar (c : Char) : Bool := charBetween '0' '9' c

/-- Regex `\s` (the whitespace characters that can actually occur in this
widget's values: space, tab, newline, carriage return, vertical tab,
form feed, no-break space). -/
def isSpaceChar (c : Char) : Bool :=
  c == ' ' || c == '\t' || c == '\n' || c == '\r' ||
  c == '\x0b' || c == '\x0c' || c == '\u00A0'

/-- Numeric value of a digit character. -/
def digitVal (c : Char) : Nat := c.toNat - 48

/-! ### `cardFormatter.ts`: brand detection -/

/-- Pattern `/^4/` (visa). -/
def matchVisa : List Char → Bool
  | c :: _ => c == '4'
  | [] => false

/-- Pattern `/^(5[1-5]|2(2[2-9][0-9]|[3-6][0-9]{2}|7[0-1][0-9]|720))/`
(mastercard). -/
def matchMastercard : List Char → Bool
  | c0 :: c1 :: rest =>
    (c0 == '5' && charBetween '1' '5' c1) ||
    (c0 == '2' &&
      (match rest with
       | c2 :: c3 :: _ =>
         (c1 == '2' && charBetween '2' '9' c2 && charBetween '0' '9' c3) ||
         (charBetween '3' '6' c1 && charBetween '0' '9' c2 &&
           charBetween '0' '9' c3) ||
         (c1 == '7' && charBetween '0' '1' c2 && charBetween '0' '9' c3) ||
         (c1 == '7' && c2 == '2' && c3 == '0')
       | _ => false))
  | _ => false

/-- Pattern `/^3[47]/` (amex). -/
def matchAmex : List Char → Bool
  | c0 :: c1 :: _ => c0 == '3' && (c1 == '4' || c1 == '7')
  | _ => false

/-- Pattern `/^6(?:011|5)/` (discover). -/
def matchDiscover : List Char → Bool
  | c0 :: c1 :: rest =>
    c0 == '6' &&
      (c1 == '5' ||
        (c1 == '0' &&
          (match rest with
           | c2 :: c3 :: _ => c2 == '1' && c3 == '1'
           | _ => false)))
  | _ => false

/-- Pattern `/^3(?:0[0-5]|[68])/` (diners). -/
def matchDiners : List Char → Bool
  | c0 :: c1 :: rest =>
    c0 == '3' &&
      (c1 == '6' || c1 == '8' ||
        (c1 == '0' &&
          (match rest with
           | c2 :: _ => charBetween '0' '5' c2
           | [] => false)))
  | _ => false

/-- Pattern `/^35/` (jcb). -/
def matchJcb : List Char → Bool
  | c0 :: c1 :: _ => c0 == '3' && c1 == '5'
  | _ => false

/-- Pattern `/^62/` (unionpay). -/
def matchUnionpay : List Char → Bool
  | c0 :: c1 :: _ => c0 == '6' && c1 == '2'
  | _ => false

/-- `detectCardBrand` from `cardFormatter.ts`: tries the brand patterns in
the insertion order of the `patterns` object (visa, mastercard, amex,
discover, diners, jcb, unionpay); the first match wins, otherwise
`"unknown"`. -/
def detectCardBrand (number : String) : String :=
  if matchVisa number.data then "visa"
  else if matchMastercard number.data then "mastercard"
  else if matchAmex number.data then "amex"
  else if matchDiscover number.data then "discover"
  else if matchDiners number.data then "diners"
  else if matchJcb number.data then "jcb"
  else if matchUnionpay number.data then "unionpay"
  else "unknown"

/-! ### `cardFormatter.ts`: formatting and extraction -/

/-- `value.replace(/\s/g, "")`: remove every whitespace character. -/
def stripWhitespaceList (l : List Char) : List Char :=
  l.filter (fun c => !isSpaceChar c)

/-- `cleaned.replace(/(\d{4})/g, "$1 ")`: the global regex replace scans
left to right; each window of four consecutive digit characters is
emitted followed by a space, any other character is emitted unchanged. -/
def groupReplace : List Char → List Char
  | a :: b :: c :: d :: rest =>
    if isDigitChar a && isDigitChar b && isDigitChar c && isDigitChar d then
      a :: b :: c :: d :: ' ' :: groupReplace rest
    else
      a :: groupReplace (b :: c :: d :: rest)
  | l => l

/-- Right half of JS `String.trim`: drop trailing whitespace. -/
def dropTrailingWS : List Char → List Char
  | [] => []
  | a :: rest =>
    match dropTrailingWS rest with
    | [] => if isSpaceChar a then [] else [a]
    | r => a :: r

/-- JS `String.trim`: drop leading and trailing whitespace. -/
def trimList (l : List Char) : List Char :=
  dropTrailingWS (l.dropWhile isSpaceChar)

/-- Body of `formatCardNumber` after the initial whitespace strip: detect
the brand of the cleaned digits, then group 4-6-5 for amex (by length
thresholds, as in the source) and 4-4-4-4 (regex replace plus trim) for
everything else. -/
def formatCore (cleaned : List Char) : String :=
  let brand := detectCardBrand ⟨cleaned⟩
  if brand == "amex" then
    if cleaned.length ≤ 4 then ⟨cleaned⟩
    else if cleaned.length ≤ 10 then
      ⟨cleaned.take 4 ++ ' ' :: cleaned.drop 4⟩
    else
      ⟨cleaned.take 4 ++ ' ' :: (cleaned.drop 4).take 6 ++ ' ' :: cleaned.drop 10⟩
  else
    ⟨trimList (groupReplace cleaned)⟩

/-- `formatCardNumber` from `cardFormatter.ts`. -/
def formatCardNumber (value : String) : String :=
  formatCore (stripWhitespaceList value.data)

/-- `cleanCardNumber` from `cardFormatter.ts`: `value.replace(/\D/g, "")`,
keep only digit characters. -/
def cleanCardNumber (value : String) : String :=
  ⟨value.data.filter (fun c => isDigitChar c)⟩

/-! ### `cardFormatter.ts`: Luhn validation -/

/-- One step of the source's Luhn loop: the digit is doubled (with 9
subtracted when the double exceeds 9) on iterations where `isEven` is
set. -/
def luhnAdjust (isEven : Bool) (d : Nat) : Nat :=
  if isEven then (if d * 2 > 9 then d * 2 - 9 else d * 2) else d

/-- The source's Luhn summation loop, iterating over the digit values from
the rightmost digit with the `isEven` flag toggling each step. -/
def luhnLoop : List Nat → Bool → Nat
  | [], _ => 0
  | d :: rest, isEven => luhnAdjust isEven d + luhnLoop rest (!isEven)

/-- `validateCardNumber` from `cardFormatter.ts`: strip non-digits, fail on
length < 13 or > 19, otherwise check the Luhn sum modulo 10. -/
def validateCardNumber (number : String) : Bool :=
  let cleaned := cleanCardNumber number
  if cleaned.length < 13 || cleaned.length > 19 then false
  else luhnLoop (cleaned.data.reverse.map digitVal) false % 10 == 0

/-! ### `cardFormatter.ts`: templates and ghost text -/

/-- `getMaxLength` from `cardFormatter.ts`. -/
def getMaxLength (brand : String) : Nat :=
  if brand == "amex" then 15
  else if brand == "diners" then 14
  else 16

/-- `getCardTemplate` from `cardFormatter.ts`. -/
def getCardTemplate (brand : String) : String :=
  if brand == "amex" then "1234 123456 12345" else "1234 1234 1234 1234"

/-- `getGhostText` from `cardFormatter.ts` (`template.slice(n)`). -/
def getGhostText (currentValue : String) (brand : String) : String :=
  ⟨(getCardTemplate brand).data.drop currentValue.length⟩

/-! ### `CardInput.tsx`: state -/

/-- The keypad-driven blocks (`'block3' | 'block4'` in the source). -/
inductive KeyBlock where
  | block3
  | block4
  deriving DecidableEq

/-- The component state of `CardInput` (its `useState` slots together with
the `prevFrontPartRef` ref). -/
structure CardState where
  frontPart : String
  block3 : String
  block4 : String
  activeBlock : KeyBlock
  brand : String
  isValid : Bool
  cursorPosition : Option Nat
  showKeypad : Bool
  binCheckLoading : Bool
  binCheckComplete : Bool
  prevFrontPart : String
  deriving DecidableEq

/-- `getFrontMaxLength` from `CardInput.tsx`. -/
def getFrontMaxLength (brand : String) : Nat :=
  if brand == "amex" then 4 else 8

/-- `getBlock3MaxLength` from `CardInput.tsx`. -/
def getBlock3MaxLength (brand : String) : Nat :=
  if brand == "amex" then 6 else 4

/-- `getBlock4MaxLength` from `CardInput.tsx`. -/
def getBlock4MaxLength (brand : String) : Nat :=
  if brand == "amex" then 5 else 4

/-- `isFrontComplete` from `CardInput.tsx`. -/
def isFrontComplete (s : CardState) : Bool :=
  s.brand != "unknown" && s.frontPart.length == getFrontMaxLength s.brand

/-- `isBlock3Enabled` from `CardInput.tsx`: block 3 accepts keypad input
only once the BIN check has completed. -/
def isBlock3Enabled (s : CardState) : Bool := s.binCheckComplete

/-- `isBlock4Enabled` from `CardInput.tsx`. -/
def isBlock4Enabled (s : CardState) : Bool :=
  s.block3.length == getBlock3MaxLength s.brand

/-! ### `CardInput.tsx`: display helpers -/

/-- `getBlockTemplate` from `CardInput.tsx` (the component closes over
`brand`; the model passes it explicitly). -/
def getBlockTemplate (brand : String) (blockName : KeyBlock) : String :=
  match blockName with
  | .block3 => if brand == "amex" then "123456" else "1234"
  | .block4 => if brand == "amex" then "12345" else "1234"

/-- `displayBlock` from `CardInput.tsx`: one bullet per entered digit
followed by the unfilled tail of the block's template. -/
def displayBlock (brand : String) (blockValue : String) (blockName : KeyBlock) :
    String :=
  let template := getBlockTemplate brand blockName
  let masked : String := ⟨blockValue.data.map (fun _ => '•')⟩
  let ghost : String := ⟨template.data.drop blockValue.length⟩
  masked ++ ghost

/-- `getDisplayCardNumber` from `CardInput.tsx`: the formatted front part,
plus — once either keypad block holds digits — the two block displays,
joined with single spaces with empty parts filtered out. -/
def getDisplayCardNumber (s : CardState) : String :=
  let front := formatCardNumber s.frontPart
  if s.block3 == "" && s.block4 == "" then front
  else
    let display3 := displayBlock s.brand s.block3 .block3
    let display4 := displayBlock s.brand s.block4 .block4
    String.intercalate " " ([front, display3, display4].filter (fun p => p != ""))

/-! ### `CardInput.tsx`: front-input helpers -/

/-- `extractFrontPartFromInput` from `CardInput.tsx`: cut the raw input
down to the formatted width of the front area, then drop bullet/whitespace
characters and every remaining non-digit. -/
def extractFrontPartFromInput (value : String) (currentBrand : String) : String :=
  let frontMaxLength := getFrontMaxLength currentBrand
  let frontMaxFormatted := (formatCardNumber ⟨List.replicate frontMaxLength '9'⟩).length
  let frontPartValue := value.data.take frontMaxFormatted
  ⟨(frontPartValue.filter (fun c => !(c == '•' || isSpaceChar c))).filter
      (fun c => isDigitChar c)⟩

/-- `adjustFrontPartForBrandChange` from `CardInput.tsx`. -/
def adjustFrontPartForBrandChange (frontPart oldBrand newBrand : String) : String :=
  let oldMaxLength := getFrontMaxLength oldBrand
  let newMaxLength := getFrontMaxLength newBrand
  if newMaxLength < oldMaxLength && frontPart.length > newMaxLength then
    ⟨frontPart.data.take newMaxLength⟩
  else frontPart

/-- `shouldResetBackBlocks` from `CardInput.tsx`. -/
def shouldResetBackBlocks (resetBackOnFrontEdit : Bool)
    (newFrontPart prevFrontPart newBrand oldBrand : String)
    (hasBackBlocks : Bool) : Bool :=
  if !resetBackOnFrontEdit || !hasBackBlocks then false
  else newFrontPart != prevFrontPart || newBrand != oldBrand

/-- `resetBackBlocks` from `CardInput.tsx`: clear both keypad blocks,
point the active block back at block 3, hide the keypad and drop the
BIN-check completion flag. -/
def resetBackBlocks (s : CardState) : CardState :=
  { s with block3 := "", block4 := "", activeBlock := .block3,
           showKeypad := false, binCheckComplete := false }

/-- Loop body of `calculateCursorPosition`: walk the formatted string,
counting non-space characters; when the count first reaches the target the
position just after the current character is returned (0 if the target is
never reached). -/
def cursorLoop : List Char → Nat → Nat → Nat → Nat
  | [], _, _, _ => 0
  | c :: rest, target, count, i =>
    let count' := if c != ' ' then count + 1 else count
    if count' == target then i + 1 else cursorLoop rest target count' (i + 1)

/-- `calculateCursorPosition` from `CardInput.tsx`. -/
def calculateCursorPosition (formattedValue : String) (digitsBeforeCursor : Nat) :
    Nat :=
  cursorLoop formattedValue.data digitsBeforeCursor 0 0

/-! ### `CardInput.tsx`: `handleFrontChange`

The intermediate values of the handler are split into named definitions so
that theorems can refer to them; `handleFrontChange` itself strings them
together exactly as steps 1–10 of the source do. -/

/-- Step 1 of `handleFrontChange`: the brand in effect before the edit. -/
def currentBrandOf (s : CardState) : String :=
  if s.brand != "unknown" then s.brand else detectCardBrand s.frontPart

/-- Step 2 of `handleFrontChange`: digits of the front area of the raw
input. -/
def cleanedValueOf (s : CardState) (value : String) : String :=
  extractFrontPartFromInput value (currentBrandOf s)

/-- Step 3 of `handleFrontChange`: brand re-detected from the extracted
digits. -/
def detectedBrandOf (s : CardState) (value : String) : String :=
  detectCardBrand (cleanedValueOf s value)

/-- Step 4 of `handleFrontChange`: the candidate new front value, adjusted
on a brand change and capped at the new brand's front capacity. -/
def newFrontPartOf (s : CardState) (value : String) : String :=
  let cleanedValue := cleanedValueOf s value
  let detectedBrand := detectedBrandOf s value
  let base :=
    if detectedBrand != currentBrandOf s then
      adjustFrontPartForBrandChange cleanedValue (currentBrandOf s) detectedBrand
    else cleanedValue
  ⟨base.data.take (getFrontMaxLength detectedBrand)⟩

/-- Step 5 of `handleFrontChange`: the edit is dropped when, without a
brand change, the extracted digits overflow the front capacity. -/
def rejectsEdit (s : CardState) (value : String) : Bool :=
  !(detectedBrandOf s value != currentBrandOf s) &&
    (cleanedValueOf s value).length > getFrontMaxLength (detectedBrandOf s value)

/-- Step 7 of `handleFrontChange`: number of digits before the caret in
the raw input (bullets removed first, then all non-digits). -/
def digitsBeforeCursorOf (value : String) (cursorPos : Nat) : Nat :=
  (cleanCardNumber ⟨(value.data.take cursorPos).filter (fun c => !(c == '•'))⟩).length

/-- `handleFrontChange` from `CardInput.tsx`, as one state transition: the
handler's `setState` calls applied to the component state.  `value` and
`cursorPos` are the raw input text and caret offset of the change event. -/
def handleFrontChange (resetBackOnFrontEdit : Bool) (s : CardState)
    (value : String) (cursorPos : Nat) : CardState :=
  let detectedBrand := detectedBrandOf s value
  let detectedFrontMaxLength := getFrontMaxLength detectedBrand
  let newFrontPart := newFrontPartOf s value
  if rejectsEdit s value then s
  else
    let hasBackBlocks := s.block3 != "" || s.block4 != ""
    let didReset := shouldResetBackBlocks resetBackOnFrontEdit newFrontPart
      s.prevFrontPart detectedBrand s.brand hasBackBlocks
    let s1 := if didReset then resetBackBlocks s else s
    let digitsBeforeCursor := digitsBeforeCursorOf value cursorPos
    let s2 := { s1 with frontPart := newFrontPart, brand := detectedBrand,
                        prevFrontPart := newFrontPart }
    let isFrontCompleteNow :=
      newFrontPart.length == detectedFrontMaxLength && detectedBrand != "unknown"
    let s3 := if !didReset && isFrontCompleteNow then
        { s2 with showKeypad := true }
      else s2
    let formattedFront := formatCardNumber newFrontPart
    let newCursorPos := calculateCursorPosition formattedFront digitsBeforeCursor
    { s3 with cursorPosition := some newCursorPos }

/-! ### `CardInput.tsx`: keypad handlers -/

/-- `handleKeypadNumber` from `CardInput.tsx`: append the pressed digit to
the active block when that block is enabled and below capacity; filling
block 3 advances the active block to block 4. -/
def handleKeypadNumber (s : CardState) (num : String) : CardState :=
  if s.activeBlock = KeyBlock.block3 ∧ isBlock3Enabled s = true then
    let maxLength := getBlock3MaxLength s.brand
    if s.block3.length ≥ maxLength then s
    else
      let newBlock3 := s.block3 ++ num
      let s1 := { s with block3 := newBlock3 }
      if newBlock3.length == maxLength then { s1 with activeBlock := .block4 }
      else s1
  else if s.activeBlock = KeyBlock.block4 ∧ isBlock4Enabled s = true then
    let maxLength := getBlock4MaxLength s.brand
    if s.block4.length ≥ maxLength then s
    else { s with block4 := s.block4 ++ num }
  else s

/-- `handleKeypadDelete` from `CardInput.tsx`. -/
def handleKeypadDelete (s : CardState) : CardState :=
  match s.activeBlock with
  | .block3 => { s with block3 := ⟨s.block3.data.take (s.block3.length - 1)⟩ }
  | .block4 =>
    if s.block4.length > 0 then
      { s with block4 := ⟨s.block4.data.take (s.block4.length - 1)⟩ }
    else { s with activeBlock := .block3 }

/-! ### `CardInput.tsx`: the BIN-check effect

The `useEffect` at the end of the component starts a BIN check whenever
the front part is complete, no check has completed and none is loading.
The model splits the asynchronous callback into the synchronous request
start (which records the front value the request was issued for) and the
two resolution continuations the source installs with `.then`/`.catch`. -/

/-- Request start: when the guard of the BIN-check effect holds (and an
`onBinCheck` callback is supplied), the loading flag is set and a request
carrying the current front value is issued. -/
def binCheckEffect (s : CardState) : CardState × Option String :=
  if isFrontComplete s && !s.binCheckComplete && !s.binCheckLoading then
    ({ s with binCheckLoading := true }, some s.frontPart)
  else (s, none)

/-- The `.then` continuation of the BIN check: it unconditionally marks
the check complete and clears the loading flag (the source performs no
comparison against the front value the request was issued for). -/
def binResolveSuccess (s : CardState) : CardState :=
  { s with binCheckComplete := true, binCheckLoading := false }

/-- The `.catch` continuation of the BIN check: the error is logged and
only the loading flag is cleared. -/
def binResolveFailure (s : CardState) : CardState :=
  { s with binCheckLoading := false }

/-! ### Specification-side definitions

These definitions follow the wording of the specification (not the code);
the theorems below compare the code's functions against them. -/

/-- Numeric value of the first `k` characters of `s` read as a decimal
number (used to speak about two- and four-digit prefixes). -/
def prefixNum (s : String) (k : Nat) : Nat :=
  ((s.data.take k).map digitVal).foldl (fun a d => 10 * a + d) 0

/-- The mastercard condition exactly as the claim words it: a two-digit
prefix in 51–55 or a four-digit prefix in 2221–2720. -/
def mastercardClaimedRange (s : String) : Prop :=
  (2 ≤ s.length ∧ 51 ≤ prefixNum s 2 ∧ prefixNum s 2 ≤ 55) ∨
  (4 ≤ s.length ∧ 2221 ≤ prefixNum s 4 ∧ prefixNum s 4 ≤ 2720)

/-- The mastercard condition the code actually implements: a two-digit
prefix in 51–55 or a four-digit prefix in 2220–2720 (the regex alternative
`2[2-9][0-9]` also accepts 2220). -/
def mastercardCodeRange (s : String) : Prop :=
  (2 ≤ s.length ∧ 51 ≤ prefixNum s 2 ∧ prefixNum s 2 ≤ 55) ∨
  (4 ≤ s.length ∧ 2220 ≤ prefixNum s 4 ∧ prefixNum s 4 ≤ 2720)

instance (s : String) : Decidable (mastercardClaimedRange s) := by
  unfold mastercardClaimedRange
  infer_instance

instance (s : String) : Decidable (mastercardCodeRange s) := by
  unfold mastercardCodeRange
  infer_instance

/-- Doubling step of the standard Luhn checksum as the specification words
it: double the digit, subtract 9 if the doubled value exceeds 9. -/
def luhnDouble (d : Nat) : Nat := if d * 2 > 9 then d * 2 - 9 else d * 2

/-- The standard Luhn checksum as the specification words it: over the
digits counted from the rightmost (index 0), double every second digit
(odd indices), subtract 9 when the double exceeds 9, and sum. `ds` is the
digit sequence in writing order. -/
def luhnChecksumSpec (ds : List Nat) : Nat :=
  (ds.reverse.enum.map (fun p => if p.1 % 2 = 1 then luhnDouble p.2 else p.2)).sum

/-- `renderDisplayValue` as the specification words it: format the front
segment normally; when at least one keypad segment holds digits, render
each keypad segment as one mask character per entered digit followed by
the unfilled remainder of its ghost template, and join the front,
segment-A and segment-B display strings with single spaces, omitting
empty segments. -/
def renderDisplayValueSpec (s : CardState) : String :=
  let front := formatCardNumber s.frontPart
  if s.block3 = "" ∧ s.block4 = "" then front
  else
    let segA : String :=
      ⟨List.replicate s.block3.length '•' ++
        (getBlockTemplate s.brand .block3).data.drop s.block3.length⟩
    let segB : String :=
      ⟨List.replicate s.block4.length '•' ++
        (getBlockTemplate s.brand .block4).data.drop s.block4.length⟩
    String.intercalate " " (([front, segA, segB]).filter (fun p => p ≠ ""))

/-! ### Concrete scenario states used by the witnesses -/

/-- A state whose visa front part has just been completed: the BIN check
has not run yet. -/
def demoFrontState : CardState :=
  { frontPart := "41111111", block3 := "", block4 := "", activeBlock := .block3,
    brand := "visa", isValid := false, cursorPosition := none, showKeypad := true,
    binCheckLoading := false, binCheckComplete := false,
    prevFrontPart := "41111111" }

/-- A state with a verified front part and keypad digits entered. -/
def demoBackState : CardState :=
  { demoFrontState with block3 := "123", activeBlock := .block4,
                        binCheckComplete := true }

/-- A state with a verified front part, keypad on block 3. -/
def demoKeypadState : CardState :=
  { demoFrontState with binCheckComplete := true, block3 := "12" }

/-- The initial (mount) state of the component. -/
def emptyState : CardState :=
  { frontPart := "", block3 := "", block4 := "", activeBlock := .block3,
    brand := "unknown", isValid := false, cursorPosition := none,
    showKeypad := false, binCheckLoading := false, binCheckComplete := false,
    prevFrontPart := "" }

/-! ## Helper lemmas -/

theorem char_toNat_inj {a b : Char} (h : a.toNat = b.toNat) : a = b := by
  cases a; cases b
  simp only [Char.toNat] at h
  congr 1
  exact UInt32.toNat.inj h

theorem charBetween_iff (lo hi c : Char) :
    charBetween lo hi c = true ↔ lo.toNat ≤ c.toNat ∧ c.toNat ≤ hi.toNat := by
  simp [charBetween]

theorem isDigitChar_iff (c : Char) :
    isDigitChar c = true ↔ 48 ≤ c.toNat ∧ c.toNat ≤ 57 := by
  have h0 : ('0' : Char).toNat = 48 := rfl
  have h9 : ('9' : Char).toNat = 57 := rfl
  rw [isDigitChar, charBetween_iff, h0, h9]

theorem char_beq_iff_toNat (c d : Char) : (c == d) = true ↔ c.toNat = d.toNat := by
  rw [beq_iff_eq]
  exact ⟨fun h => h ▸ rfl, char_toNat_inj⟩

theorem isSpaceChar_of_isDigitChar {c : Char} (h : isDigitChar c = true) :
    isSpaceChar c = false := by
  obtain ⟨h1, h2⟩ := (isDigitChar_iff c).mp h
  rw [isSpaceChar]
  simp only [Bool.or_eq_false_iff, beq_eq_false_iff_ne, ne_eq]
  refine ⟨⟨⟨⟨⟨⟨?_, ?_⟩, ?_⟩, ?_⟩, ?_⟩, ?_⟩, ?_⟩ <;>
    (intro hc; subst hc;
      first
      | exact absurd h1 (by decide)
      | exact absurd h2 (by decide))

theorem isDigitChar_of_not_space {c : Char} (h : isSpaceChar c = true) :
    isDigitChar c = false := by
  cases hd : isDigitChar c with
  | false => rfl
  | true => rw [isSpaceChar_of_isDigitChar hd] at h; cases h

theorem isSpaceChar_space : isSpaceChar ' ' = true := by decide

theorem space_ne_of_isDigitChar {c : Char} (h : isDigitChar c = true) :
    (c != ' ') = true := by
  have hb := (isDigitChar_iff c).mp h
  simp only [bne_iff_ne, ne_eq]
  intro hc; subst hc; exact absurd hb.1 (by decide)

theorem filter_groupReplace (p : Char → Bool) (hp : p ' ' = false) :
    ∀ l : List Char, (groupReplace l).filter p = l.filter p := by
  intro l
  induction l using groupReplace.induct with
  | case1 a b c d rest hdig ih =>
    rw [groupReplace, if_pos hdig]
    simp [List.filter_cons, hp, ih]
  | case2 a b c d rest hdig ih =>
    rw [groupReplace, if_neg hdig]
    simp [List.filter_cons, ih]
  | case3 l h =>
    rw [groupReplace.eq_def]
    split
    · next a b c d rest => exact absurd rfl (h a b c d rest)
    · rfl

theorem mem_groupReplace {c : Char} :
    ∀ {l : List Char}, c ∈ groupReplace l → c ∈ l ∨ c = ' ' := by
  intro l
  induction l using groupReplace.induct with
  | case1 a b c' d rest hdig ih =>
    rw [groupReplace, if_pos hdig]
    intro hm
    simp only [List.mem_cons] at hm ⊢
    rcases hm with h | h | h | h | h | h
    · exact Or.inl (Or.inl h)
    · exact Or.inl (Or.inr (Or.inl h))
    · exact Or.inl (Or.inr (Or.inr (Or.inl h)))
    · exact Or.inl (Or.inr (Or.inr (Or.inr (Or.inl h))))
    · exact Or.inr h
    · rcases ih h with h' | h'
      · exact Or.inl (Or.inr (Or.inr (Or.inr (Or.inr h'))))
      · exact Or.inr h'
  | case2 a b c' d rest hdig ih =>
    rw [groupReplace, if_neg hdig]
    intro hm
    simp only [List.mem_cons] at hm ⊢
    rcases hm with h | h
    · exact Or.inl (Or.inl h)
    · rcases ih h with h' | h'
      · simp only [List.mem_cons] at h'
        exact Or.inl (Or.inr h')
      · exact Or.inr h'
  | case3 l h =>
    rw [groupReplace.eq_def]
    split
    · next a b c' d rest => exact absurd rfl (h a b c' d rest)
    · exact fun hm => Or.inl hm

theorem head?_groupReplace : ∀ l : List Char, (groupReplace l).head? = l.head? := by
  intro l
  induction l using groupReplace.induct with
  | case1 a b c d rest hdig ih => rw [groupReplace, if_pos hdig]; rfl
  | case2 a b c d rest hdig ih => rw [groupReplace, if_neg hdig]; rfl
  | case3 l h =>
    rw [groupReplace.eq_def]
    split
    · next a b c d rest => exact absurd rfl (h a b c d rest)
    · rfl

theorem dropTrailingWS_eq_nil {l : List Char} (h : dropTrailingWS l = []) :
    ∀ c ∈ l, isSpaceChar c = true := by
  induction l with
  | nil => intro c hc; cases hc
  | cons a rest ih =>
    rw [dropTrailingWS] at h
    intro c hc
    rcases List.mem_cons.mp hc with rfl | hc'
    · revert h
      cases hr : dropTrailingWS rest with
      | nil =>
        by_cases hs : isSpaceChar c = true
        · intro _; exact hs
        · simp [hs]
      | cons x xs => intro h; cases h
    · revert h
      cases hr : dropTrailingWS rest with
      | nil => intro _; exact ih hr c hc'
      | cons x xs => intro h; cases h

theorem filter_dropTrailingWS (p : Char → Bool)
    (hp : ∀ c, isSpaceChar c = true → p c = false) :
    ∀ l : List Char, (dropTrailingWS l).filter p = l.filter p := by
  intro l
  induction l with
  | nil => rfl
  | cons a rest ih =>
    rw [dropTrailingWS]
    cases hr : dropTrailingWS rest with
    | nil =>
      have hall : rest.filter p = [] := by
        rw [List.filter_eq_nil_iff]
        intro c hc
        simp [hp c (dropTrailingWS_eq_nil hr c hc)]
      by_cases hs : isSpaceChar a = true
      · simp [hs, List.filter_cons, hp a hs, hall]
      · have : isSpaceChar a = false := by
          cases h : isSpaceChar a
          · rfl
          · exact absurd h hs
        simp only [this, Bool.false_eq_true, if_false]
        rw [List.filter_cons, List.filter_cons]
        simp [hall]
    | cons x xs =>
      have hxs : List.filter p (x :: xs) = List.filter p rest := by
        rw [← hr]; exact ih
      rw [List.filter_cons, hxs, ← List.filter_cons]

theorem mem_dropTrailingWS {c : Char} :
    ∀ {l : List Char}, c ∈ dropTrailingWS l → c ∈ l := by
  intro l
  induction l with
  | nil => exact fun h => h
  | cons a rest ih =>
    rw [dropTrailingWS]
    cases hr : dropTrailingWS rest with
    | nil =>
      by_cases hs : isSpaceChar a = true
      · simp [hs]
      · have : isSpaceChar a = false := by
          cases h : isSpaceChar a
          · rfl
          · exact absurd h hs
        simp only [this, Bool.false_eq_true, if_false]
        intro hm
        rcases List.mem_cons.mp hm with rfl | h'
        · exact List.mem_cons_self _ _
        · cases h'
    | cons x xs =>
      intro hm
      rcases List.mem_cons.mp hm with rfl | h'
      · exact List.mem_cons_self _ _
      · exact List.mem_cons_of_mem _ (ih (hr ▸ h'))

theorem head?_dropTrailingWS :
    ∀ l : List Char, dropTrailingWS l = [] ∨ (dropTrailingWS l).head? = l.head? := by
  intro l
  cases l with
  | nil => exact Or.inl rfl
  | cons a rest =>
    rw [dropTrailingWS]
    cases hr : dropTrailingWS rest with
    | nil =>
      by_cases hs : isSpaceChar a = true
      · simp [hs]
      · have : isSpaceChar a = false := by
          cases h : isSpaceChar a
          · rfl
          · exact absurd h hs
        simp [this]
    | cons x xs => exact Or.inr rfl

theorem filter_dropWhile_space (p : Char → Bool)
    (hp : ∀ c, isSpaceChar c = true → p c = false) (l : List Char) :
    (l.dropWhile isSpaceChar).filter p = l.filter p := by
  conv_rhs => rw [← List.takeWhile_append_dropWhile isSpaceChar l]
  rw [List.filter_append]
  have : (l.takeWhile isSpaceChar).filter p = [] := by
    rw [List.filter_eq_nil_iff]
    intro c hc
    simp [hp c (List.mem_takeWhile_imp hc)]
  rw [this, List.nil_append]

theorem filter_trimList (p : Char → Bool)
    (hp : ∀ c, isSpaceChar c = true → p c = false) (l : List Char) :
    (trimList l).filter p = l.filter p := by
  rw [trimList, filter_dropTrailingWS p hp, filter_dropWhile_space p hp]

theorem mem_trimList {c : Char} {l : List Char} (h : c ∈ trimList l) : c ∈ l :=
  List.dropWhile_subset _ (mem_dropTrailingWS h)

theorem head?_trimList_of_digit {c : Char} {l : List Char}
    (hhead : l.head? = some c) (hd : isDigitChar c = true) :
    trimList l = [] ∨ (trimList l).head? = some c := by
  cases l with
  | nil => cases hhead
  | cons a rest =>
    have hac : a = c := by
      simpa using hhead
    subst hac
    rw [trimList]
    have hdw : (a :: rest).dropWhile isSpaceChar = a :: rest := by
      rw [List.dropWhile_cons, isSpaceChar_of_isDigitChar hd]
      simp
    rw [hdw]
    rcases head?_dropTrailingWS (a :: rest) with h | h
    · exact Or.inl h
    · exact Or.inr (by rw [h]; rfl)

/-- Filtering the formatted output with any predicate that rejects
whitespace and accepts every input character recovers the input: the
formatter only inserts and removes whitespace. -/
theorem filter_formatCore (p : Char → Bool)
    (hsp : ∀ c, isSpaceChar c = true → p c = false) (cleaned : List Char)
    (hall : ∀ c ∈ cleaned, p c = true) :
    (formatCore cleaned).data.filter p = cleaned := by
  have hpspace : p ' ' = false := hsp ' ' isSpaceChar_space
  have htake : ∀ n : Nat, (cleaned.take n).filter p = cleaned.take n :=
    fun n => List.filter_eq_self.mpr (fun c hc => hall c (List.take_subset n cleaned hc))
  have hdrop : ∀ n : Nat, (cleaned.drop n).filter p = cleaned.drop n :=
    fun n => List.filter_eq_self.mpr (fun c hc => hall c (List.drop_subset n cleaned hc))
  rw [formatCore]
  split
  · split
    · exact List.filter_eq_self.mpr hall
    · split
      · show (cleaned.take 4 ++ ' ' :: cleaned.drop 4).filter p = cleaned
        rw [List.filter_append, List.filter_cons]
        simp only [hpspace, Bool.false_eq_true, if_false]
        rw [htake, hdrop, List.take_append_drop]
      · show (cleaned.take 4 ++ ' ' :: (cleaned.drop 4).take 6 ++ ' ' :: cleaned.drop 10).filter p
          = cleaned
        have htd : ((cleaned.drop 4).take 6).filter p = (cleaned.drop 4).take 6 :=
          List.filter_eq_self.mpr
            (fun c hc => hall c (List.drop_subset 4 cleaned (List.take_subset 6 _ hc)))
        rw [List.filter_append, List.filter_cons]
        simp only [hpspace, Bool.false_eq_true, if_false]
        rw [List.filter_append, List.filter_cons]
        simp only [hpspace, Bool.false_eq_true, if_false]
        rw [htake, htd, hdrop]
        have h10 : (cleaned.drop 4).drop 6 = cleaned.drop 10 := by
          rw [List.drop_drop]
        rw [← h10, List.append_assoc, List.take_append_drop 6 (List.drop 4 cleaned),
          List.take_append_drop 4 cleaned]
  · show (trimList (groupReplace cleaned)).filter p = cleaned
    rw [filter_trimList p hsp, filter_groupReplace p hpspace,
      List.filter_eq_self.mpr hall]

/-- Stripping whitespace out of a formatted value recovers the whitespace
strip of the original value. -/
theorem stripWS_format (s : String) :
    stripWhitespaceList (formatCardNumber s).data = stripWhitespaceList s.data := by
  rw [formatCardNumber, stripWhitespaceList]
  exact filter_formatCore _ (fun c hc => by simp [hc]) _
    (fun c hc => by
      rcases List.mem_filter.mp hc with ⟨_, h⟩
      exact h)

/-! ## Claim C10 -/

/-- Claim C10: `formatCardNumber` is idempotent on every string input:
it strips all whitespace before detecting the brand and grouping, and only
ever inserts space separators, so re-formatting an already formatted value
changes nothing. -/
theorem formatCardNumber_idempotent (s : String) :
    formatCardNumber (formatCardNumber s) = formatCardNumber s := by
  conv_lhs => rw [formatCardNumber]
  rw [stripWS_format]
  rfl

/-! ## Claim C5 -/

/-- Claim C5: for every string consisting only of digits, extracting the
digits from the formatted display recovers the string exactly:
`cleanCardNumber (formatCardNumber d) = d`. -/
theorem cleanCardNumber_formatCardNumber_roundtrip (s : String)
    (h : ∀ c ∈ s.data, isDigitChar c = true) :
    cleanCardNumber (formatCardNumber s) = s := by
  have hstrip : stripWhitespaceList s.data = s.data :=
    List.filter_eq_self.mpr (fun c hc => by
      rw [isSpaceChar_of_isDigitChar (h c hc)]
      rfl)
  rw [cleanCardNumber]
  conv_lhs => rw [formatCardNumber, hstrip]
  rw [filter_formatCore _ (fun c hc => isDigitChar_of_not_space hc) s.data h]

/-- Witness for C5: the round-trip evaluated on a concrete 16-digit visa
number. -/
theorem cleanCardNumber_formatCardNumber_roundtrip_witness :
    (∀ c ∈ ("4242424242424242" : String).data, isDigitChar c = true) ∧
      cleanCardNumber (formatCardNumber "4242424242424242") = "4242424242424242" :=
  ⟨by decide, cleanCardNumber_formatCardNumber_roundtrip "4242424242424242" (by decide)⟩

/-! ## Claim C4 -/

theorem decide_succ_mod_two (n : Nat) :
    (decide ((n + 1) % 2 = 1)) = !decide (n % 2 = 1) := by
  rcases Nat.mod_two_eq_zero_or_one n with h | h <;> simp [Nat.add_mod, h]

/-- The source's Luhn loop agrees with the indexed description: starting
the flag in phase with the parity of `n`, each element at index `i`
(counting within `enumFrom n`) is doubled exactly when `i` is odd. -/
theorem luhnLoop_enumFrom (l : List Nat) :
    ∀ n : Nat, luhnLoop l (decide (n % 2 = 1)) =
      ((List.enumFrom n l).map
        (fun p => if p.1 % 2 = 1 then luhnDouble p.2 else p.2)).sum := by
  induction l with
  | nil => intro n; rfl
  | cons d rest ih =>
    intro n
    rw [luhnLoop, List.enumFrom_cons, List.map_cons, List.sum_cons,
      ← decide_succ_mod_two, ih (n + 1)]
    congr 1
    by_cases h : n % 2 = 1 <;> simp [luhnAdjust, luhnDouble, h]

/-- Claim C4: `validateCardNumber` is total (a Lean function returning
`Bool`), returns `false` whenever the digit count after removing
non-digits is below 13 or above 19, and otherwise succeeds exactly when
the standard Luhn checksum of those digits is divisible by 10. -/
theorem validateCardNumber_iff_luhn (number : String) :
    validateCardNumber number = true ↔
      13 ≤ (cleanCardNumber number).length ∧ (cleanCardNumber number).length ≤ 19 ∧
        luhnChecksumSpec ((cleanCardNumber number).data.map digitVal) % 10 = 0 := by
  rw [validateCardNumber]
  have hloop : luhnLoop ((cleanCardNumber number).data.reverse.map digitVal) false =
      luhnChecksumSpec ((cleanCardNumber number).data.map digitVal) := by
    have h0 : (false : Bool) = decide (0 % 2 = 1) := by decide
    rw [luhnChecksumSpec, List.map_reverse, h0, luhnLoop_enumFrom, List.enum_eq_enumFrom]
  split
  · next hcond =>
    simp only [Bool.or_eq_true, decide_eq_true_eq] at hcond
    have hlen : (cleanCardNumber number).length = (cleanCardNumber number).data.length := rfl
    constructor
    · intro h; cases h
    · rintro ⟨h1, h2, _⟩
      rcases hcond with h | h <;> omega
  · next hcond =>
    simp only [Bool.or_eq_true, decide_eq_true_eq, not_or] at hcond
    rw [hloop, beq_iff_eq]
    constructor
    · intro h
      exact ⟨by omega, by omega, h⟩
    · rintro ⟨_, _, h⟩
      exact h

/-! ## Claim C2 -/

theorem charCode_zero : ('0' : Char).toNat = 48 := rfl
theorem charCode_one : ('1' : Char).toNat = 49 := rfl
theorem charCode_two : ('2' : Char).toNat = 50 := rfl
theorem charCode_three : ('3' : Char).toNat = 51 := rfl
theorem charCode_four : ('4' : Char).toNat = 52 := rfl
theorem charCode_five : ('5' : Char).toNat = 53 := rfl
theorem charCode_six : ('6' : Char).toNat = 54 := rfl
theorem charCode_seven : ('7' : Char).toNat = 55 := rfl
theorem charCode_nine : ('9' : Char).toNat = 57 := rfl

/-- The mastercard regex, on digit strings, is exactly the numeric
condition "two-digit prefix in 51–55 or four-digit prefix in
2220–2720". -/
theorem matchMastercard_iff_range (s : String)
    (h : ∀ c ∈ s.data, isDigitChar c = true) :
    matchMastercard s.data = true ↔ mastercardCodeRange s := by
  obtain ⟨l⟩ := s
  rcases l with _ | ⟨c0, _ | ⟨c1, _ | ⟨c2, _ | ⟨c3, rest⟩⟩⟩⟩
  · rw [show matchMastercard [] = false from rfl, mastercardCodeRange,
      show (String.mk []).length = 0 from rfl]
    simp only [Bool.false_eq_true, false_iff]
    rintro (⟨h2, _⟩ | ⟨h4, _⟩) <;> omega
  · rw [show matchMastercard [c0] = false from rfl, mastercardCodeRange,
      show (String.mk [c0]).length = 1 from rfl]
    simp only [Bool.false_eq_true, false_iff]
    rintro (⟨h2, _⟩ | ⟨h4, _⟩) <;> omega
  · have h0 := (isDigitChar_iff c0).mp (h c0 (by simp))
    have h1 := (isDigitChar_iff c1).mp (h c1 (by simp))
    rw [show matchMastercard [c0, c1] =
        ((c0 == '5' && charBetween '1' '5' c1) || (c0 == '2' && false)) from rfl,
      mastercardCodeRange,
      show prefixNum ⟨[c0, c1]⟩ 2 = 10 * (10 * 0 + digitVal c0) + digitVal c1 from rfl,
      show prefixNum ⟨[c0, c1]⟩ 4 = 10 * (10 * 0 + digitVal c0) + digitVal c1 from rfl,
      show (String.mk [c0, c1]).length = 2 from rfl]
    simp only [Bool.or_eq_true, Bool.and_eq_true, char_beq_iff_toNat,
      charBetween_iff, charCode_one, charCode_two, charCode_five, Bool.and_false,
      Bool.false_eq_true, or_false, and_false, digitVal]
    omega
  · have h0 := (isDigitChar_iff c0).mp (h c0 (by simp))
    have h1 := (isDigitChar_iff c1).mp (h c1 (by simp))
    have h2 := (isDigitChar_iff c2).mp (h c2 (by simp))
    rw [show matchMastercard [c0, c1, c2] =
        ((c0 == '5' && charBetween '1' '5' c1) || (c0 == '2' && false)) from rfl,
      mastercardCodeRange,
      show prefixNum ⟨[c0, c1, c2]⟩ 2 = 10 * (10 * 0 + digitVal c0) + digitVal c1 from rfl,
      show prefixNum ⟨[c0, c1, c2]⟩ 4 =
        10 * (10 * (10 * 0 + digitVal c0) + digitVal c1) + digitVal c2 from rfl,
      show (String.mk [c0, c1, c2]).length = 3 from rfl]
    simp only [Bool.or_eq_true, Bool.and_eq_true, char_beq_iff_toNat,
      charBetween_iff, charCode_one, charCode_two, charCode_five, Bool.and_false,
      Bool.false_eq_true, or_false, and_false, digitVal]
    omega
  · have h0 := (isDigitChar_iff c0).mp (h c0 (by simp))
    have h1 := (isDigitChar_iff c1).mp (h c1 (by simp))
    have h2 := (isDigitChar_iff c2).mp (h c2 (by simp))
    have h3 := (isDigitChar_iff c3).mp (h c3 (by simp))
    rw [show matchMastercard (c0 :: c1 :: c2 :: c3 :: rest) =
        ((c0 == '5' && charBetween '1' '5' c1) ||
          (c0 == '2' &&
            ((c1 == '2' && charBetween '2' '9' c2 && charBetween '0' '9' c3) ||
              (charBetween '3' '6' c1 && charBetween '0' '9' c2 &&
                charBetween '0' '9' c3) ||
              (c1 == '7' && charBetween '0' '1' c2 && charBetween '0' '9' c3) ||
              (c1 == '7' && c2 == '2' && c3 == '0')))) from rfl,
      mastercardCodeRange,
      show prefixNum ⟨c0 :: c1 :: c2 :: c3 :: rest⟩ 2 =
        10 * (10 * 0 + digitVal c0) + digitVal c1 from rfl,
      show prefixNum ⟨c0 :: c1 :: c2 :: c3 :: rest⟩ 4 =
        10 * (10 * (10 * (10 * 0 + digitVal c0) + digitVal c1) + digitVal c2) +
          digitVal c3 from rfl]
    have hlen : (String.mk (c0 :: c1 :: c2 :: c3 :: rest)).length = rest.length + 4 := by
      simp only [String.length, List.length_cons]
    rw [hlen]
    simp only [Bool.or_eq_true, Bool.and_eq_true, char_beq_iff_toNat,
      charBetween_iff, charCode_zero, charCode_one, charCode_two, charCode_three,
      charCode_five, charCode_six, charCode_seven, charCode_nine, digitVal]
    omega

/-- A string the mastercard pattern accepts never starts with `'4'`, so the
visa pattern (tried first) rejects it. -/
theorem matchVisa_false_of_mastercard :
    ∀ {l : List Char}, matchMastercard l = true → matchVisa l = false := by
  intro l hm
  rcases l with _ | ⟨c0, _ | ⟨c1, rest⟩⟩
  · cases hm
  · cases hm
  · cases hb : (c0 == '4') with
    | false => rw [show matchVisa (c0 :: c1 :: rest) = (c0 == '4') from rfl, hb]
    | true =>
      exfalso
      have hc0 : c0 = '4' := beq_iff_eq.mp hb
      subst hc0
      rw [show matchMastercard ('4' :: c1 :: rest) = false from rfl] at hm
      cases hm

/-- Counterexample to claim C2 as stated: the digit string `"2220"` is
classified as mastercard although its four-digit prefix 2220 lies outside
the claimed range 2221–2720 (and its two-digit prefix 22 outside 51–55). -/
theorem detectCardBrand_2220_counterexample :
    detectCardBrand "2220" = "mastercard" ∧ ¬ mastercardClaimedRange "2220" :=
  ⟨by decide, by decide⟩

/-- Claim C2 (amended): `detectCardBrand` tests the patterns in priority
order with first match wins; on digit strings it returns `"mastercard"`
exactly when the string starts with a two-digit prefix in 51–55 or a
four-digit prefix in 2220–2720 (the code's lower bound is 2220, not the
claimed 2221). -/
theorem detectCardBrand_eq_mastercard_iff (s : String)
    (h : ∀ c ∈ s.data, isDigitChar c = true) :
    detectCardBrand s = "mastercard" ↔ mastercardCodeRange s := by
  rw [detectCardBrand]
  constructor
  · intro hd
    by_cases hv : matchVisa s.data = true
    · rw [if_pos hv] at hd
      exact absurd hd (by decide)
    · rw [if_neg hv] at hd
      by_cases hm : matchMastercard s.data = true
      · exact (matchMastercard_iff_range s h).mp hm
      · rw [if_neg hm] at hd
        exfalso
        repeat' split at hd
        all_goals exact absurd hd (by decide)
  · intro hr
    have hm := (matchMastercard_iff_range s h).mpr hr
    have hv : ¬ (matchVisa s.data = true) := by
      rw [matchVisa_false_of_mastercard hm]
      exact fun hx => nomatch hx
    rw [if_neg hv, if_pos hm]

/-- Witness for the amended C2: both the pattern outcome and the numeric
range condition evaluated on the concrete digit string `"5511"`. -/
theorem detectCardBrand_eq_mastercard_iff_witness :
    (∀ c ∈ ("5511" : String).data, isDigitChar c = true) ∧
      (detectCardBrand "5511" = "mastercard" ↔ mastercardCodeRange "5511") :=
  ⟨by decide, detectCardBrand_eq_mastercard_iff "5511" (by decide)⟩

/-! ## Claim C1 -/

/-- Claim C1 fails on the code (a bug the specification itself flags as a
known defect): in a concrete run, the BIN check is issued for the front
value `"41111111"`; the front segment is then edited to `"41111112"`
while the request is in flight; when the stale response resolves, the
`.then` continuation still sets the verification state to Complete even
though the front value that triggered the request no longer equals the
current front value. -/
theorem staleBinResponse_applied :
    (binCheckEffect demoFrontState).2 = some "41111111" ∧
      (handleFrontChange true (binCheckEffect demoFrontState).1 "4111 1112" 9).frontPart
        = "41111112" ∧
      (handleFrontChange true (binCheckEffect demoFrontState).1 "4111 1112" 9).binCheckComplete
        = false ∧
      (binResolveSuccess
        (handleFrontChange true (binCheckEffect demoFrontState).1 "4111 1112" 9)).binCheckComplete
        = true := by
  refine ⟨rfl, ?_, ?_, rfl⟩ <;> decide

/-! ## Claim C6 -/

/-- Claim C6: a keypad digit press targeted at segment A (block 3) is a
no-op leaving the whole state unchanged while the BIN check is not
complete; once it is complete, the same press appends the digit to
block 3 provided the block is below its brand capacity. -/
theorem keypadBlock3_gating (s : CardState) (num : String)
    (hA : s.activeBlock = KeyBlock.block3) :
    (s.binCheckComplete = false → handleKeypadNumber s num = s) ∧
      (s.binCheckComplete = true → s.block3.length < getBlock3MaxLength s.brand →
        (handleKeypadNumber s num).block3 = s.block3 ++ num) := by
  constructor
  · intro hC
    rw [handleKeypadNumber]
    rw [if_neg (by
      rintro ⟨_, he⟩
      rw [isBlock3Enabled, hC] at he
      cases he)]
    rw [if_neg (by
      rintro ⟨hb, _⟩
      rw [hA] at hb
      cases hb)]
  · intro hC hlt
    rw [handleKeypadNumber]
    rw [if_pos ⟨hA, show isBlock3Enabled s = true from hC⟩]
    rw [if_neg (Nat.not_le.mpr hlt)]
    dsimp only
    split <;> rfl

/-- Witness for C6 at a concrete state: with the BIN check complete, a
press of `"7"` on block 3 appends the digit. -/
theorem keypadBlock3_gating_witness :
    demoKeypadState.activeBlock = KeyBlock.block3 ∧
      (demoKeypadState.binCheckComplete = false →
        handleKeypadNumber demoKeypadState "7" = demoKeypadState) ∧
      (demoKeypadState.binCheckComplete = true →
        demoKeypadState.block3.length < getBlock3MaxLength demoKeypadState.brand →
        (handleKeypadNumber demoKeypadState "7").block3 = demoKeypadState.block3 ++ "7") :=
  ⟨rfl, (keypadBlock3_gating demoKeypadState "7" rfl).1,
    (keypadBlock3_gating demoKeypadState "7" rfl).2⟩

/-! ## Claim C7 -/

/-- Claim C7: when a front-input edit does not change the detected brand
and the extracted digit count exceeds the current brand's front capacity,
the edit is rejected silently: the handler returns the state completely
unchanged (front part, brand, keypad blocks, active block, keypad
visibility, verification flags and reported caret position included). -/
theorem overflowEdit_rejected (cfg : Bool) (s : CardState) (value : String)
    (cursorPos : Nat)
    (hbrand : detectedBrandOf s value = currentBrandOf s)
    (hover : (cleanedValueOf s value).length > getFrontMaxLength (detectedBrandOf s value)) :
    handleFrontChange cfg s value cursorPos = s := by
  have hrej : rejectsEdit s value = true := by
    rw [hbrand] at hover
    rw [rejectsEdit, hbrand]
    simp [hover]
  rw [handleFrontChange, if_pos hrej]

/-- Witness for C7: typing a ninth digit into a complete visa front part
leaves the state untouched. -/
theorem overflowEdit_rejected_witness :
    detectedBrandOf demoFrontState "411111111" = currentBrandOf demoFrontState ∧
      (cleanedValueOf demoFrontState "411111111").length >
        getFrontMaxLength (detectedBrandOf demoFrontState "411111111") ∧
      handleFrontChange true demoFrontState "411111111" 9 = demoFrontState :=
  ⟨by decide, by decide,
    overflowEdit_rejected true demoFrontState "411111111" 9 (by decide) (by decide)⟩

/-! ## Claim C3 -/

/-- Claim C3: with `resetBackOnFrontEdit` configured true, a committed
front edit that changes the front value or the brand while a keypad block
holds digits clears both keypad blocks, resets the active block to
block 3, hides the keypad and resets the BIN-check completion flag. -/
theorem frontEdit_resets_back (s : CardState) (value : String) (cursorPos : Nat)
    (hcommit : rejectsEdit s value = false)
    (hchanged : newFrontPartOf s value ≠ s.prevFrontPart ∨
      detectedBrandOf s value ≠ s.brand)
    (hback : s.block3 ≠ "" ∨ s.block4 ≠ "") :
    (handleFrontChange true s value cursorPos).block3 = "" ∧
      (handleFrontChange true s value cursorPos).block4 = "" ∧
      (handleFrontChange true s value cursorPos).activeBlock = KeyBlock.block3 ∧
      (handleFrontChange true s value cursorPos).showKeypad = false ∧
      (handleFrontChange true s value cursorPos).binCheckComplete = false := by
  have hasBack : (s.block3 != "" || s.block4 != "") = true := by
    rcases hback with h | h <;> simp [h]
  have hreset : shouldResetBackBlocks true (newFrontPartOf s value) s.prevFrontPart
      (detectedBrandOf s value) s.brand (s.block3 != "" || s.block4 != "") = true := by
    rw [shouldResetBackBlocks, hasBack]
    rcases hchanged with h | h <;> simp [h]
  rw [handleFrontChange, if_neg (by rw [hcommit]; exact fun hx => nomatch hx)]
  dsimp only
  rw [hreset]
  simp [resetBackBlocks]

/-- Witness for C3: editing the last front digit while block 3 holds
`"123"` clears both keypad blocks and all the associated flags. -/
theorem frontEdit_resets_back_witness :
    rejectsEdit demoBackState "4111 1112" = false ∧
      (newFrontPartOf demoBackState "4111 1112" ≠ demoBackState.prevFrontPart ∨
        detectedBrandOf demoBackState "4111 1112" ≠ demoBackState.brand) ∧
      (demoBackState.block3 ≠ "" ∨ demoBackState.block4 ≠ "") ∧
      (handleFrontChange true demoBackState "4111 1112" 9).block3 = "" ∧
      (handleFrontChange true demoBackState "4111 1112" 9).block4 = "" ∧
      (handleFrontChange true demoBackState "4111 1112" 9).activeBlock = KeyBlock.block3 ∧
      (handleFrontChange true demoBackState "4111 1112" 9).showKeypad = false ∧
      (handleFrontChange true demoBackState "4111 1112" 9).binCheckComplete = false := by
  refine ⟨by decide, Or.inl (by decide), Or.inl (by decide), ?_⟩
  have h := frontEdit_resets_back demoBackState "4111 1112" 9 (by decide)
    (Or.inl (by decide)) (Or.inl (by decide))
  exact ⟨h.1, h.2.1, h.2.2.1, h.2.2.2.1, h.2.2.2.2⟩

/-! ## Claim C9 -/

/-- `displayBlock` rendered as the specification words it: one mask
character per entered digit, then the unfilled remainder of the block's
ghost template. -/
theorem displayBlock_eq (brand v : String) (name : KeyBlock) :
    displayBlock brand v name =
      ⟨List.replicate v.length '•' ++ (getBlockTemplate brand name).data.drop v.length⟩ := by
  rw [displayBlock]
  show String.mk (v.data.map fun _ => '•') ++
      String.mk ((getBlockTemplate brand name).data.drop v.length) = _
  have hrep : (v.data.map fun _ => '•') = List.replicate v.length '•' := by
    rw [List.map_const']
    rfl
  rw [hrep]
  rfl

/-- Claim C9: the rendered display value equals the specification's
description — the front segment formatted normally and, once a keypad
segment holds digits, each keypad segment rendered as mask characters
followed by the unfilled ghost-template remainder, all joined with single
spaces with empty segments omitted. -/
theorem getDisplayCardNumber_eq_spec (s : CardState) :
    getDisplayCardNumber s = renderDisplayValueSpec s := by
  rw [getDisplayCardNumber, renderDisplayValueSpec]
  by_cases h3 : s.block3 = "" <;> by_cases h4 : s.block4 = ""
  · simp [h3, h4]
  · simp only [h3, h4]
    rw [if_neg (by simp [h4]), if_neg (by simp [h4])]
    rw [displayBlock_eq, displayBlock_eq]
    congr 1
    apply List.filter_congr
    intro a _
    by_cases h : a = "" <;> simp [h]
  · simp only [h3, h4]
    rw [if_neg (by simp [h3]), if_neg (by simp [h3])]
    rw [displayBlock_eq, displayBlock_eq]
    congr 1
    apply List.filter_congr
    intro a _
    by_cases h : a = "" <;> simp [h]
  · simp only [h3, h4]
    rw [if_neg (by simp [h3]), if_neg (by simp [h3])]
    rw [displayBlock_eq, displayBlock_eq]
    congr 1
    apply List.filter_congr
    intro a _
    by_cases h : a = "" <;> simp [h]

/-! ## Claim C8 -/

theorem cursorLoop_gt : ∀ (l : List Char) (target count i : Nat), target < count →
    cursorLoop l target count i = 0 := by
  intro l
  induction l with
  | nil => intro target count i h; rfl
  | cons a rest ih =>
    intro target count i h
    rw [cursorLoop]
    have hge : (if (a != ' ') = true then count + 1 else count) ≥ count := by
      split <;> omega
    rw [if_neg (by
      intro hx
      have := beq_iff_eq.mp hx
      omega)]
    exact ih target _ (i + 1) (by omega)

theorem cursorLoop_found : ∀ (l : List Char) (target count i : Nat),
    count < target → target ≤ count + (l.filter (fun c => c != ' ')).length →
    ∃ j, cursorLoop l target count i = i + j ∧ 0 < j ∧ j ≤ l.length ∧
      ((l.take j).filter (fun c => c != ' ')).length = target - count ∧
      ∃ c, (l.take j).getLast? = some c ∧ (c != ' ') = true := by
  intro l
  induction l with
  | nil =>
    intro target count i h1 h2
    simp at h2
    omega
  | cons a rest ih =>
    intro target count i h1 h2
    rw [cursorLoop]
    by_cases ha : (a != ' ') = true
    · rw [if_pos ha]
      by_cases heq : count + 1 = target
      · rw [if_pos (beq_iff_eq.mpr heq)]
        refine ⟨1, by omega, by omega, by simp, ?_, a, ?_, ha⟩
        · simp [List.filter_cons, ha]
          omega
        · simp
      · rw [if_neg (by
          intro hx
          exact heq (beq_iff_eq.mp hx))]
        have hcnt : ((a :: rest).filter (fun c => c != ' ')).length
            = (rest.filter (fun c => c != ' ')).length + 1 := by
          simp [List.filter_cons, ha]
        obtain ⟨j, hj, hj0, hjlen, hjfilt, c, hc, hcs⟩ :=
          ih target (count + 1) (i + 1) (by omega) (by omega)
        have hne : rest.take j ≠ [] := by
          intro hnil
          rw [hnil] at hjfilt
          simp at hjfilt
          omega
        refine ⟨j + 1, by rw [hj]; omega, by omega, by simp; omega, ?_, c, ?_, hcs⟩
        · rw [List.take_succ_cons]
          simp [List.filter_cons, ha, hjfilt]
          omega
        · rw [List.take_succ_cons]
          rcases hrt : rest.take j with _ | ⟨x, xs⟩
          · exact absurd hrt hne
          · rw [hrt] at hc
            rw [List.getLast?_cons_cons]
            exact hc
    · rw [if_neg ha]
      rw [if_neg (by
        intro hx
        have := beq_iff_eq.mp hx
        omega)]
      have hcnt : ((a :: rest).filter (fun c => c != ' ')).length
          = (rest.filter (fun c => c != ' ')).length := by
        simp [List.filter_cons, ha]
      obtain ⟨j, hj, hj0, hjlen, hjfilt, c, hc, hcs⟩ :=
        ih target count (i + 1) h1 (by omega)
      have hne : rest.take j ≠ [] := by
        intro hnil
        rw [hnil] at hjfilt
        simp at hjfilt
        omega
      refine ⟨j + 1, by rw [hj]; omega, by omega, by simp; omega, ?_, c, ?_, hcs⟩
      · rw [List.take_succ_cons]
        simp [List.filter_cons, ha, hjfilt]
      · rw [List.take_succ_cons]
        rcases hrt : rest.take j with _ | ⟨x, xs⟩
        · exact absurd hrt hne
        · rw [hrt] at hc
          rw [List.getLast?_cons_cons]
          exact hc

theorem calculateCursorPosition_zero (f : String)
    (hhead : f.data = [] ∨ ∃ c t, f.data = c :: t ∧ isDigitChar c = true) :
    calculateCursorPosition f 0 = 0 := by
  rw [calculateCursorPosition]
  rcases hhead with h | ⟨c, t, h, hc⟩
  · rw [h]; rfl
  · rw [h, cursorLoop]
    rw [if_pos (space_ne_of_isDigitChar hc)]
    rw [if_neg (by simp)]
    exact cursorLoop_gt t 0 1 1 (by omega)

theorem stripWS_of_digits {l : List Char} (h : ∀ c ∈ l, isDigitChar c = true) :
    stripWhitespaceList l = l :=
  List.filter_eq_self.mpr (fun c hc => by
    rw [isSpaceChar_of_isDigitChar (h c hc)]
    rfl)

theorem mem_formatCore_digit (cleaned : List Char)
    (h : ∀ c ∈ cleaned, isDigitChar c = true) :
    ∀ c ∈ (formatCore cleaned).data, isDigitChar c = true ∨ c = ' ' := by
  rw [formatCore]
  split
  · split
    · exact fun c hc => Or.inl (h c hc)
    · split
      · intro c hc
        show isDigitChar c = true ∨ c = ' '
        rcases List.mem_append.mp hc with hm | hm
        · exact Or.inl (h c (List.take_subset 4 cleaned hm))
        · rcases List.mem_cons.mp hm with rfl | hm'
          · exact Or.inr rfl
          · exact Or.inl (h c (List.drop_subset 4 cleaned hm'))
      · intro c hc
        show isDigitChar c = true ∨ c = ' '
        rcases List.mem_append.mp hc with hm | hm
        · rcases List.mem_append.mp hm with h1 | h1
          · exact Or.inl (h c (List.take_subset 4 cleaned h1))
          · rcases List.mem_cons.mp h1 with rfl | h2
            · exact Or.inr rfl
            · exact Or.inl (h c (List.drop_subset 4 cleaned (List.take_subset 6 _ h2)))
        · rcases List.mem_cons.mp hm with rfl | hm3
          · exact Or.inr rfl
          · exact Or.inl (h c (List.drop_subset 10 cleaned hm3))
  · intro c hc
    have hg := mem_trimList hc
    rcases mem_groupReplace hg with hm | hm
    · exact Or.inl (h c hm)
    · exact Or.inr hm

theorem head_formatCore_digit (cleaned : List Char)
    (h : ∀ c ∈ cleaned, isDigitChar c = true) :
    (formatCore cleaned).data = [] ∨
      ∃ c t, (formatCore cleaned).data = c :: t ∧ isDigitChar c = true := by
  rcases cleaned with _ | ⟨c0, rest⟩
  · exact Or.inl rfl
  · have hc0 : isDigitChar c0 = true := h c0 (by simp)
    rw [formatCore]
    split
    · split
      · exact Or.inr ⟨c0, rest, rfl, hc0⟩
      · split
        · exact Or.inr ⟨c0, _, rfl, hc0⟩
        · exact Or.inr ⟨c0, _, rfl, hc0⟩
    · show trimList (groupReplace (c0 :: rest)) = [] ∨ _
      have hg : (groupReplace (c0 :: rest)).head? = (c0 :: rest).head? :=
        head?_groupReplace (c0 :: rest)
      rcases hgr : groupReplace (c0 :: rest) with _ | ⟨g0, gt⟩
      · rw [hgr] at hg; cases hg
      · have hg0 : g0 = c0 := by
          rw [hgr] at hg
          simpa using hg
        subst hg0
        rw [trimList]
        have hdw : (g0 :: gt).dropWhile isSpaceChar = g0 :: gt := by
          rw [List.dropWhile_cons]
          rw [isSpaceChar_of_isDigitChar hc0]
          simp
        rw [hdw]
        rcases hd : dropTrailingWS (g0 :: gt) with _ | ⟨x, xs⟩
        · exact Or.inl rfl
        · rcases head?_dropTrailingWS (g0 :: gt) with hnil | hh
          · rw [hd] at hnil; cases hnil
          · rw [hd] at hh
            have hx : x = g0 := by simpa using hh
            subst hx
            exact Or.inr ⟨x, xs, rfl, hc0⟩

theorem filter_nonspace_eq_filter_digit (L : List Char)
    (hL : ∀ c ∈ L, isDigitChar c = true ∨ c = ' ') :
    L.filter (fun c => c != ' ') = L.filter (fun c => isDigitChar c) := by
  apply List.filter_congr
  intro a ha
  rcases hL a ha with hd | hs
  · rw [hd, space_ne_of_isDigitChar hd]
  · subst hs
    rfl

theorem calculateCursorPosition_spec (d : String)
    (hd : ∀ c ∈ d.data, isDigitChar c = true) (n : Nat)
    (hn : n ≤ ((formatCardNumber d).data.filter (fun c => isDigitChar c)).length) :
    (((formatCardNumber d).data.take (calculateCursorPosition (formatCardNumber d) n)).filter
        (fun c => isDigitChar c)).length = n ∧
      (n = 0 → calculateCursorPosition (formatCardNumber d) n = 0) ∧
      (0 < n → ∃ c,
        ((formatCardNumber d).data.take
          (calculateCursorPosition (formatCardNumber d) n)).getLast? = some c ∧
          isDigitChar c = true) := by
  have hfd : formatCardNumber d = formatCore d.data := by
    rw [formatCardNumber, stripWS_of_digits hd]
  have hchars : ∀ c ∈ (formatCardNumber d).data, isDigitChar c = true ∨ c = ' ' := by
    rw [hfd]
    exact mem_formatCore_digit d.data hd
  rcases Nat.eq_zero_or_pos n with rfl | hpos
  · have hz : calculateCursorPosition (formatCardNumber d) 0 = 0 := by
      apply calculateCursorPosition_zero
      rw [hfd]
      exact head_formatCore_digit d.data hd
    refine ⟨?_, fun _ => hz, fun h => absurd h (by omega)⟩
    rw [hz]
    rfl
  · have hflt : (formatCardNumber d).data.filter (fun c => c != ' ')
        = (formatCardNumber d).data.filter (fun c => isDigitChar c) :=
      filter_nonspace_eq_filter_digit _ hchars
    obtain ⟨j, hj, hj0, hjlen, hjfilt, c, hc, hcs⟩ :=
      cursorLoop_found (formatCardNumber d).data n 0 0 hpos
        (by rw [hflt]; omega)
    have hp : calculateCursorPosition (formatCardNumber d) n = j := by
      rw [calculateCursorPosition, hj]
      omega
    have htchars : ∀ x ∈ (formatCardNumber d).data.take j,
        isDigitChar x = true ∨ x = ' ' :=
      fun x hx => hchars x (List.take_subset j _ hx)
    refine ⟨?_, fun h => absurd h (by omega), fun _ => ⟨c, ?_, ?_⟩⟩
    · rw [hp, ← filter_nonspace_eq_filter_digit _ htchars, hjfilt]
      omega
    · rw [hp]
      exact hc
    · have hcm : c ∈ (formatCardNumber d).data.take j := List.mem_of_mem_getLast? hc
      rcases htchars c hcm with h | h
      · exact h
      · subst h
        simp at hcs

theorem extractFront_digits (value cb : String) :
    ∀ x ∈ (extractFrontPartFromInput value cb).data, isDigitChar x = true := by
  intro x hx
  simp only [extractFrontPartFromInput] at hx
  exact (List.mem_filter.mp hx).2

theorem cleanedValueOf_digits (s : CardState) (value : String) :
    ∀ x ∈ (cleanedValueOf s value).data, isDigitChar x = true := by
  rw [cleanedValueOf]
  exact extractFront_digits value (currentBrandOf s)

theorem adjust_digits (fp ob nb : String)
    (h : ∀ x ∈ fp.data, isDigitChar x = true) :
    ∀ x ∈ (adjustFrontPartForBrandChange fp ob nb).data, isDigitChar x = true := by
  rw [adjustFrontPartForBrandChange]
  split
  · intro x hx
    exact h x (List.take_subset _ _ hx)
  · exact h

theorem newFrontPartOf_digits (s : CardState) (value : String) :
    ∀ c ∈ (newFrontPartOf s value).data, isDigitChar c = true := by
  rw [newFrontPartOf]
  dsimp only
  intro c hc
  replace hc := List.take_subset _ _ hc
  revert hc
  split
  · exact fun hc => adjust_digits _ _ _ (cleanedValueOf_digits s value) c hc
  · exact fun hc => cleanedValueOf_digits s value c hc

/-- Claim C8: for every committed front edit, the handler reports the
caret position computed by `calculateCursorPosition` on the newly
formatted front string from the number `n` of digits preceding the
original caret offset in the raw input; for every such `n` up to the
number of digits in the formatted string, the prefix of the formatted
string up to the returned position contains exactly `n` digits, the
position is 0 when `n` is 0, and when `n` is positive the prefix ends in
a digit. -/
theorem committedEdit_cursorPosition (cfg : Bool) (s : CardState) (value : String)
    (cursorPos : Nat) (hcommit : rejectsEdit s value = false)
    (hn : digitsBeforeCursorOf value cursorPos ≤
      ((formatCardNumber (newFrontPartOf s value)).data.filter
        (fun c => isDigitChar c)).length) :
    (handleFrontChange cfg s value cursorPos).cursorPosition =
      some (calculateCursorPosition (formatCardNumber (newFrontPartOf s value))
        (digitsBeforeCursorOf value cursorPos)) ∧
      (((formatCardNumber (newFrontPartOf s value)).data.take
          (calculateCursorPosition (formatCardNumber (newFrontPartOf s value))
            (digitsBeforeCursorOf value cursorPos))).filter
          (fun c => isDigitChar c)).length = digitsBeforeCursorOf value cursorPos ∧
      (digitsBeforeCursorOf value cursorPos = 0 →
        calculateCursorPosition (formatCardNumber (newFrontPartOf s value))
          (digitsBeforeCursorOf value cursorPos) = 0) ∧
      (0 < digitsBeforeCursorOf value cursorPos → ∃ c,
        ((formatCardNumber (newFrontPartOf s value)).data.take
          (calculateCursorPosition (formatCardNumber (newFrontPartOf s value))
            (digitsBeforeCursorOf value cursorPos))).getLast? = some c ∧
          isDigitChar c = true) := by
  obtain ⟨h1, h2, h3⟩ := calculateCursorPosition_spec (newFrontPartOf s value)
    (newFrontPartOf_digits s value) (digitsBeforeCursorOf value cursorPos) hn
  refine ⟨?_, h1, h2, h3⟩
  rw [handleFrontChange, if_neg (by rw [hcommit]; exact fun hx => nomatch hx)]

/-- Witness for C8: typing five digits into the empty widget; the caret
lands after `"4111 1"` at position 6, whose prefix holds exactly five
digits and ends in a digit. -/
theorem committedEdit_cursorPosition_witness :
    rejectsEdit emptyState "41111" = false ∧
      digitsBeforeCursorOf "41111" 5 ≤
        ((formatCardNumber (newFrontPartOf emptyState "41111")).data.filter
          (fun c => isDigitChar c)).length ∧
      ((handleFrontChange true emptyState "41111" 5).cursorPosition =
        some (calculateCursorPosition (formatCardNumber (newFrontPartOf emptyState "41111"))
          (digitsBeforeCursorOf "41111" 5)) ∧
        (((formatCardNumber (newFrontPartOf emptyState "41111")).data.take
            (calculateCursorPosition (formatCardNumber (newFrontPartOf emptyState "41111"))
              (digitsBeforeCursorOf "41111" 5))).filter
            (fun c => isDigitChar c)).length = digitsBeforeCursorOf "41111" 5 ∧
        (digitsBeforeCursorOf "41111" 5 = 0 →
          calculateCursorPosition (formatCardNumber (newFrontPartOf emptyState "41111"))
            (digitsBeforeCursorOf "41111" 5) = 0) ∧
        (0 < digitsBeforeCursorOf "41111" 5 → ∃ c,
          ((formatCardNumber (newFrontPartOf emptyState "41111")).data.take
            (calculateCursorPosition (formatCardNumber (newFrontPartOf emptyState "41111"))
              (digitsBeforeCursorOf "41111" 5))).getLast? = some c ∧
            isDigitChar c = true)) :=
  ⟨by decide, by decide,
    committedEdit_cursorPosition true emptyState "41111" 5 (by decide) (by decide)⟩

end CardInput
